import Mathlib

/-!
Shallow embedding of the CulinaryAI recipe-history client.

The embedded parts are:
* the data model (`types.ts`): `Ingredient`, `InstructionStep`, `NutritionInfo`,
  `RecipeData`, `VideoSearchResult`, `SavedRecipe`, `GroundingChunk`;
* the history store (`services/storage.ts`): `saveRecipeToHistory`,
  `getSavedRecipes`, `updateRecipeRating`, `clearHistory`;
* the video lookup (`services/gemini.ts`): `findRecipeVideos`.

Modelling conventions:
* `localStorage` under the single key `culinaryai_history` is a value of type
  `Option Blob`: `none` means the key is absent; `Blob.ok l` is a JSON blob
  that parses to the session list `l`; `Blob.corrupt` is a blob on which
  `JSON.parse` throws.  `JSON.stringify` of a session list always yields the
  well-formed blob for that list (stringify cannot fail on this acyclic data),
  and parsing it back returns the list, which is how the JSON round trip of
  these plain records behaves.
* Thrown exceptions are modelled by an environment `StorageEnv` of two flags:
  `readFails` (the `localStorage.getItem` call throws) and `writeFails` (the
  serialize-and-`setItem` step throws, e.g. quota exceeded).  Each operation
  returns its result together with the storage state after the call.
* `crypto.randomUUID()` and `Date.now()` are inputs of the embedded
  `saveRecipeToHistory`.
* JSON numbers that the code never computes with (`rating`) are modelled as
  `Int`; JSON integers as `Nat`.
-/

namespace CulinaryAI

structure Ingredient where
  item : String
  amount : String
  notes : Option String
deriving DecidableEq, Repr

structure InstructionStep where
  stepNumber : Nat
  instruction : String
  tip : Option String
deriving DecidableEq, Repr

structure NutritionInfo where
  calories : Nat
  protein : String
  carbs : String
  fat : String
deriving DecidableEq, Repr

structure RecipeData where
  title : String
  description : String
  prepTime : String
  cookTime : String
  servings : Nat
  difficulty : String
  cuisine : String
  ingredients : List Ingredient
  instructions : List InstructionStep
  nutrition : NutritionInfo
  rating : Int
  reviewCount : Nat
deriving DecidableEq, Repr

structure VideoSearchResult where
  title : String
  uri : String
  source : String
deriving DecidableEq, Repr

structure SavedRecipe where
  id : String
  timestamp : Nat
  recipe : RecipeData
  videos : List VideoSearchResult
  query : String
  userRating : Option Nat
deriving DecidableEq, Repr

/-- The stored blob under the key `culinaryai_history`: either a JSON string
that parses to a session list, or an unparseable string. -/
inductive Blob where
  | ok : List SavedRecipe → Blob
  | corrupt : Blob
deriving DecidableEq, Repr

/-- `JSON.parse` on a stored blob: the corrupt blob throws (`none`). -/
def jsonParse : Blob → Option (List SavedRecipe)
  | Blob.ok l => some l
  | Blob.corrupt => none

/-- Which storage steps throw during one operation. -/
structure StorageEnv where
  readFails : Bool
  writeFails : Bool
deriving DecidableEq, Repr

/-- The environment in which every storage step succeeds. -/
def noFail : StorageEnv := ⟨false, false⟩

/-- The `newItem` object literal built at the top of `saveRecipeToHistory`
(`userRating` is absent on creation). -/
def mkSavedRecipe (id : String) (timestamp : Nat) (query : String)
    (recipe : RecipeData) (videos : List VideoSearchResult) : SavedRecipe :=
  { id := id, timestamp := timestamp, recipe := recipe, videos := videos,
    query := query, userRating := none }

/-- `saveRecipeToHistory` (storage.ts lines 5-32): builds the new session,
reads the existing blob (`absent ⇒ []`; a parse throw is caught by the
surrounding `try`), prepends, truncates to 20 with `slice(0, 20)`, writes
back, and returns the new session; any caught throw returns `null` (`none`)
with storage untouched. -/
def saveRecipeToHistory (env : StorageEnv) (store : Option Blob)
    (id : String) (timestamp : Nat) (query : String) (recipe : RecipeData)
    (videos : List VideoSearchResult) : Option SavedRecipe × Option Blob :=
  if env.readFails then (none, store) else
  let newItem := mkSavedRecipe id timestamp query recipe videos
  let parsed : Option (List SavedRecipe) :=
    match store with
    | none => some []
    | some b => jsonParse b
  match parsed with
  | none => (none, store)
  | some existing =>
    let history := newItem :: existing
    let history := if history.length > 20 then history.take 20 else history
    if env.writeFails then (none, store) else (some newItem, some (Blob.ok history))

/-- `getSavedRecipes` (storage.ts lines 34-42): absent key or any throw
(read failure, parse failure) degrades to `[]`. -/
def getSavedRecipes (env : StorageEnv) (store : Option Blob) : List SavedRecipe :=
  if env.readFails then [] else
  match store with
  | none => []
  | some b =>
    match jsonParse b with
    | none => []
    | some l => l

/-- `updateRecipeRating` (storage.ts lines 44-63): absent key returns `[]`
without writing; otherwise maps over the parsed list replacing `userRating`
of every entry whose `id` matches, writes back, and returns the new list;
any caught throw returns `[]` with storage untouched. -/
def updateRecipeRating (env : StorageEnv) (store : Option Blob)
    (id : String) (rating : Nat) : List SavedRecipe × Option Blob :=
  if env.readFails then ([], store) else
  match store with
  | none => ([], store)
  | some b =>
    match jsonParse b with
    | none => ([], store)
    | some l =>
      let history := l.map (fun item =>
        if item.id = id then { item with userRating := some rating } else item)
      if env.writeFails then ([], store) else (history, some (Blob.ok history))

/-- `clearHistory` (storage.ts lines 65-67): `localStorage.removeItem` on the
key, leaving the key absent whatever it held before. -/
def clearHistory (_store : Option Blob) : Option Blob := none

/-! ## Video lookup (`findRecipeVideos`, gemini.ts lines 96-137) -/

/-- Optional `web` payload of a grounding chunk. -/
structure WebInfo where
  uri : Option String
  title : Option String
deriving DecidableEq, Repr

structure GroundingChunk where
  web : Option WebInfo
deriving DecidableEq, Repr

/-- JavaScript `String.prototype.includes`. -/
def jsIncludes (s pat : String) : Bool :=
  decide (List.IsInfix pat.toList s.toList)

/-- The body of the `chunks.forEach` loop: a chunk contributes a result when
`chunk.web?.uri` and `chunk.web?.title` are both truthy (present and
non-empty) and the platform filter accepts it. -/
def videoCandidate (chunk : GroundingChunk) : Option VideoSearchResult :=
  match chunk.web with
  | none => none
  | some w =>
    match w.uri, w.title with
    | some uri, some title =>
      if uri == "" || title == "" then none
      else if jsIncludes uri "youtube.com" || jsIncludes uri "youtu.be" ||
              jsIncludes uri "vimeo.com" || jsIncludes uri "tiktok.com" ||
              jsIncludes title.toLower "video" then
        some { title := title, uri := uri,
               source := if jsIncludes uri "youtube" then "YouTube" else "Web" }
      else none
    | _, _ => none

/-- One `Map.prototype.set`: an existing key keeps its position and takes the
new value; a fresh key is appended. -/
def mapSet (m : List (String × VideoSearchResult)) (k : String)
    (v : VideoSearchResult) : List (String × VideoSearchResult) :=
  if m.any (fun p => p.1 = k) then
    m.map (fun p => if p.1 = k then (k, v) else p)
  else m ++ [(k, v)]

/-- `Array.from(new Map(results.map(item => [item.uri, item])).values())`:
deduplicate by URI with JavaScript `Map` insertion semantics. -/
def dedupByUri (results : List VideoSearchResult) : List VideoSearchResult :=
  (results.foldl (fun m item => mapSet m item.uri item) []).map (fun p => p.2)

/-- `findRecipeVideos`: collect accepted candidates from the grounding chunks
(`chunks` may be absent), deduplicate by URI, `slice(0, 4)`; any throw is
caught and returns `[]` (`err` models a throw anywhere in the `try`). -/
def findRecipeVideos (err : Bool) (chunks : Option (List GroundingChunk)) :
    List VideoSearchResult :=
  if err then [] else
  let results := (chunks.getD []).filterMap videoCandidate
  (dedupByUri results).take 4

/-! ## Derived forms used by the claims -/

/-- Parameters of one `saveRecipeToHistory` call (the UUID and timestamp are
inputs of the embedding). -/
structure AppendInput where
  id : String
  timestamp : Nat
  query : String
  recipe : RecipeData
  videos : List VideoSearchResult
deriving DecidableEq, Repr

/-- The session a given append call creates. -/
def AppendInput.session (a : AppendInput) : SavedRecipe :=
  mkSavedRecipe a.id a.timestamp a.query a.recipe a.videos

/-- Storage state after one successful-environment append. -/
def appendOne (store : Option Blob) (a : AppendInput) : Option Blob :=
  (saveRecipeToHistory noFail store a.id a.timestamp a.query a.recipe a.videos).2

/-- Storage state after a sequence of appends, oldest first. -/
def appendAll (items : List AppendInput) (store : Option Blob) : Option Blob :=
  items.foldl appendOne store

/-! ## Concrete data for witnesses -/

/-- A small concrete recipe used by the concrete witnesses below. -/
def recW : RecipeData :=
  { title := "Tiramisu", description := "dessert", prepTime := "15 mins",
    cookTime := "0 mins", servings := 4, difficulty := "Easy",
    cuisine := "Italian",
    ingredients := [{ item := "mascarpone", amount := "500 g", notes := none }],
    instructions := [{ stepNumber := 1, instruction := "mix", tip := none }],
    nutrition := { calories := 450, protein := "7 g", carbs := "40 g", fat := "30 g" },
    rating := 4, reviewCount := 120 }

/-- Twenty-one append calls, oldest first. -/
def witnessItems : List AppendInput :=
  (List.range 21).map (fun i =>
    { id := "x", timestamp := i, query := "q", recipe := recW, videos := [] })

/-! ## History-store lemmas -/

theorem take_append_take {α : Type} (X Y : List α) (n : Nat) :
    (X ++ Y.take n).take n = (X ++ Y).take n := by
  rw [List.take_append_eq_append_take, List.take_append_eq_append_take]
  congr 1
  rw [List.take_take, Nat.min_eq_left (Nat.sub_le _ _)]

theorem appendOne_ok_eq (l : List SavedRecipe) (a : AppendInput) :
    appendOne (some (Blob.ok l)) a = some (Blob.ok ((a.session :: l).take 20)) := by
  rcases Nat.lt_or_ge 20 (a.session :: l).length with h | h
  · simp [appendOne, saveRecipeToHistory, noFail, jsonParse, AppendInput.session,
      mkSavedRecipe, h]
  · simp [appendOne, saveRecipeToHistory, noFail, jsonParse, AppendInput.session,
      mkSavedRecipe, Nat.not_lt.mpr h, List.take_of_length_le h]

theorem appendOne_none_eq (a : AppendInput) :
    appendOne none a = some (Blob.ok [a.session]) := by
  simp [appendOne, saveRecipeToHistory, noFail, jsonParse, AppendInput.session,
    mkSavedRecipe]

theorem appendAll_ok_eq (items : List AppendInput) :
    ∀ l : List SavedRecipe, l.length ≤ 20 →
      appendAll items (some (Blob.ok l))
        = some (Blob.ok (((items.map AppendInput.session).reverse ++ l).take 20)) := by
  induction items with
  | nil =>
      intro l hl
      simp [appendAll, List.take_of_length_le hl]
  | cons a t ih =>
      intro l hl
      have h1 : appendAll (a :: t) (some (Blob.ok l))
          = appendAll t (some (Blob.ok ((a.session :: l).take 20))) := by
        simp [appendAll, appendOne_ok_eq]
      have hlen : ((a.session :: l).take 20).length ≤ 20 := by
        simp [List.length_take]
      rw [h1, ih _ hlen]
      congr 2
      rw [take_append_take]
      congr 1
      simp [List.append_assoc]

theorem head?_take_twenty {α : Type} (l : List α) : (l.take 20).head? = l.head? := by
  cases l with
  | nil => rfl
  | cons a t => rfl

theorem getSavedRecipes_ok (env : StorageEnv) (l : List SavedRecipe)
    (h : env.readFails = false) :
    getSavedRecipes env (some (Blob.ok l)) = l := by
  simp [getSavedRecipes, jsonParse, h]

/-! ## C1 -/

/-- C1: starting from an empty store, any run of more than 20 successful
appends leaves `list()` with exactly the 20 most recently appended sessions,
newest first (oldest evicted from the tail), and the newest session is the
head, never evicted by its own insertion. -/
theorem history_capacity_evicts_tail (items : List AppendInput)
    (h : 20 < items.length) :
    getSavedRecipes noFail (appendAll items none)
        = ((items.map AppendInput.session).reverse).take 20
    ∧ (getSavedRecipes noFail (appendAll items none)).length = 20
    ∧ (getSavedRecipes noFail (appendAll items none)).head?
        = ((items.map AppendInput.session).reverse).head? := by
  obtain ⟨a, t, rfl⟩ : ∃ a t, items = a :: t := by
    cases items with
    | nil => simp at h
    | cons a t => exact ⟨a, t, rfl⟩
  have h1 : appendAll (a :: t) none = appendAll t (some (Blob.ok [a.session])) := by
    simp [appendAll, appendOne_none_eq]
  have h2 := appendAll_ok_eq t [a.session] (by simp)
  have hmain : getSavedRecipes noFail (appendAll (a :: t) none)
      = (((a :: t).map AppendInput.session).reverse).take 20 := by
    rw [h1, h2]
    have h3 : (t.map AppendInput.session).reverse ++ [a.session]
        = (((a :: t).map AppendInput.session)).reverse := by simp
    rw [← h3, getSavedRecipes_ok _ _ rfl]
  refine ⟨hmain, ?_, ?_⟩
  · rw [hmain, List.length_take, List.length_reverse, List.length_map]
    simp at h ⊢
    omega
  · rw [hmain]
    exact head?_take_twenty _

/-- Witness for C1 at a concrete run of 21 appends. -/
theorem history_capacity_evicts_tail_witness :
    20 < witnessItems.length
    ∧ (getSavedRecipes noFail (appendAll witnessItems none)
          = ((witnessItems.map AppendInput.session).reverse).take 20
       ∧ (getSavedRecipes noFail (appendAll witnessItems none)).length = 20
       ∧ (getSavedRecipes noFail (appendAll witnessItems none)).head?
          = ((witnessItems.map AppendInput.session).reverse).head?) :=
  ⟨by decide, history_capacity_evicts_tail witnessItems (by decide)⟩

/-! ## Rating-update lemmas -/

theorem map_update_notMatch (l : List SavedRecipe) (id : String) (r : Nat)
    (h : ∀ x ∈ l, x.id ≠ id) :
    l.map (fun item =>
      if item.id = id then { item with userRating := some r } else item) = l := by
  induction l with
  | nil => rfl
  | cons a t ih =>
      simp only [List.map_cons]
      rw [if_neg (h a (List.mem_cons_self a t)),
        ih (fun x hx => h x (List.mem_cons_of_mem a hx))]

/-- Concrete sessions for witnesses. -/
def sesA : SavedRecipe :=
  { id := "a", timestamp := 1, recipe := recW, videos := [], query := "qa",
    userRating := none }

def sesB : SavedRecipe :=
  { id := "b", timestamp := 2, recipe := recW, videos := [], query := "qb",
    userRating := some 3 }

def sesC : SavedRecipe :=
  { id := "c", timestamp := 3, recipe := recW, videos := [], query := "qc",
    userRating := none }

/-- Two sessions sharing one identifier (external corruption). -/
def dupA : SavedRecipe :=
  { id := "dup", timestamp := 1, recipe := recW, videos := [], query := "q1",
    userRating := none }

def dupB : SavedRecipe :=
  { id := "dup", timestamp := 2, recipe := recW, videos := [], query := "q2",
    userRating := none }

/-! ## C2 -/

/-- C2: when exactly one stored entry matches `id`, `setRating` changes only
that entry's `userRating` (same position, all other fields and entries
untouched, both in the returned and the persisted log), and re-reading the
written blob yields the returned log. -/
theorem setRating_frame_unique (l₁ l₂ : List SavedRecipe) (e : SavedRecipe)
    (id : String) (r : Nat) (he : e.id = id)
    (h₁ : ∀ x ∈ l₁, x.id ≠ id) (h₂ : ∀ x ∈ l₂, x.id ≠ id) :
    updateRecipeRating noFail (some (Blob.ok (l₁ ++ e :: l₂))) id r
      = (l₁ ++ { e with userRating := some r } :: l₂,
         some (Blob.ok (l₁ ++ { e with userRating := some r } :: l₂)))
    ∧ getSavedRecipes noFail
        (updateRecipeRating noFail (some (Blob.ok (l₁ ++ e :: l₂))) id r).2
      = (updateRecipeRating noFail (some (Blob.ok (l₁ ++ e :: l₂))) id r).1 := by
  have hmap : (l₁ ++ e :: l₂).map (fun item =>
      if item.id = id then { item with userRating := some r } else item)
      = l₁ ++ { e with userRating := some r } :: l₂ := by
    rw [List.map_append, List.map_cons, if_pos he,
      map_update_notMatch l₁ id r h₁, map_update_notMatch l₂ id r h₂]
  have hres : updateRecipeRating noFail (some (Blob.ok (l₁ ++ e :: l₂))) id r
      = (l₁ ++ { e with userRating := some r } :: l₂,
         some (Blob.ok (l₁ ++ { e with userRating := some r } :: l₂))) := by
    simp [updateRecipeRating, noFail, jsonParse, hmap]
  refine ⟨hres, ?_⟩
  rw [hres, getSavedRecipes_ok _ _ rfl]

/-- Witness for C2 on a three-entry log with distinct identifiers. -/
theorem setRating_frame_unique_witness :
    sesB.id = "b" ∧ (∀ x ∈ [sesA], x.id ≠ "b") ∧ (∀ x ∈ [sesC], x.id ≠ "b")
    ∧ (updateRecipeRating noFail (some (Blob.ok ([sesA] ++ sesB :: [sesC]))) "b" 4
        = ([sesA] ++ { sesB with userRating := some 4 } :: [sesC],
           some (Blob.ok ([sesA] ++ { sesB with userRating := some 4 } :: [sesC])))
       ∧ getSavedRecipes noFail
           (updateRecipeRating noFail
             (some (Blob.ok ([sesA] ++ sesB :: [sesC]))) "b" 4).2
         = (updateRecipeRating noFail
             (some (Blob.ok ([sesA] ++ sesB :: [sesC]))) "b" 4).1) :=
  ⟨rfl, by decide, by decide,
    setRating_frame_unique [sesA] [sesC] sesB "b" 4 rfl (by decide) (by decide)⟩

/-! ## C3 -/

/-- C3 counterexample: with two stored entries sharing `id = "dup"`,
`setRating` also rewrites the later duplicate's `userRating` — the later
duplicate is not left unchanged, contrary to the claim. -/
theorem setRating_duplicate_counterexample :
    dupA.id = dupB.id
    ∧ dupB.userRating = none
    ∧ (updateRecipeRating noFail (some (Blob.ok [dupA, dupB])) "dup" 5).1
        = [{ dupA with userRating := some 5 }, { dupB with userRating := some 5 }]
    ∧ { dupB with userRating := some 5 } ≠ dupB := by
  refine ⟨rfl, rfl, ?_, by decide⟩
  simp [updateRecipeRating, noFail, jsonParse, dupA, dupB]

/-- C3 amended: `setRating` updates the `userRating` of EVERY entry whose
identifier matches (the `map` rewrites all matches, not only the first);
non-matching entries and all positions are unchanged, and the written blob
holds exactly the returned log. -/
theorem setRating_updates_every_match (l : List SavedRecipe) (id : String)
    (r : Nat) (i : Nat) :
    (updateRecipeRating noFail (some (Blob.ok l)) id r).1.length = l.length
    ∧ (updateRecipeRating noFail (some (Blob.ok l)) id r).1[i]?
        = (l[i]?).map (fun item =>
            if item.id = id then { item with userRating := some r } else item)
    ∧ (updateRecipeRating noFail (some (Blob.ok l)) id r).2
        = some (Blob.ok (updateRecipeRating noFail (some (Blob.ok l)) id r).1) := by
  have h : (updateRecipeRating noFail (some (Blob.ok l)) id r).1
      = l.map (fun item =>
          if item.id = id then { item with userRating := some r } else item) := by
    simp [updateRecipeRating, noFail, jsonParse]
  refine ⟨?_, ?_, ?_⟩
  · rw [h, List.length_map]
  · rw [h, List.getElem?_map]
  · simp [updateRecipeRating, noFail, jsonParse]

/-! ## C4 -/

/-- C4 counterexample: on an unparseable blob, `append` does NOT treat the
log as empty — `JSON.parse` throws inside the `try`, the call returns `null`
(failure, not the created session) and storage is untouched. -/
theorem append_corrupt_counterexample :
    saveRecipeToHistory noFail (some Blob.corrupt) "x" 0 "q" recW []
      = (none, some Blob.corrupt) := by
  simp [saveRecipeToHistory, noFail, jsonParse]

/-- C4 amended: an ABSENT blob is treated as the empty log (`append` succeeds
and the written log holds the new session as its only element), but an
unparseable blob makes `append` fail and leaves storage unchanged. -/
theorem append_absent_treated_empty (id : String) (ts : Nat) (q : String)
    (recipe : RecipeData) (videos : List VideoSearchResult) :
    saveRecipeToHistory noFail none id ts q recipe videos
      = (some (mkSavedRecipe id ts q recipe videos),
         some (Blob.ok [mkSavedRecipe id ts q recipe videos]))
    ∧ saveRecipeToHistory noFail (some Blob.corrupt) id ts q recipe videos
      = (none, some Blob.corrupt) := by
  constructor
  · simp [saveRecipeToHistory, noFail, jsonParse]
  · simp [saveRecipeToHistory, noFail, jsonParse]

/-! ## C5 -/

/-- C5: whenever any step of `append` fails (the read throws, the blob does
not parse, or the serialize-and-write step throws), the call returns the
failure value `none` instead of the created session and storage is exactly
what it was before the call. -/
theorem append_failure_no_mutation (env : StorageEnv) (store : Option Blob)
    (id : String) (ts : Nat) (q : String) (recipe : RecipeData)
    (videos : List VideoSearchResult)
    (h : env.readFails = true ∨ store = some Blob.corrupt
         ∨ env.writeFails = true) :
    saveRecipeToHistory env store id ts q recipe videos = (none, store) := by
  obtain ⟨r, w⟩ := env
  rcases store with _ | b
  · cases r <;> cases w <;> simp_all [saveRecipeToHistory, jsonParse]
  · cases b <;> cases r <;> cases w <;> simp_all [saveRecipeToHistory, jsonParse]

/-- Witness for C5: a throwing read leaves a well-formed store untouched. -/
theorem append_failure_no_mutation_witness :
    ((⟨true, false⟩ : StorageEnv).readFails = true
      ∨ (some (Blob.ok []) : Option Blob) = some Blob.corrupt
      ∨ (⟨true, false⟩ : StorageEnv).writeFails = true)
    ∧ saveRecipeToHistory ⟨true, false⟩ (some (Blob.ok [])) "x" 0 "q" recW []
        = (none, some (Blob.ok [])) :=
  ⟨Or.inl rfl,
    append_failure_no_mutation ⟨true, false⟩ (some (Blob.ok [])) "x" 0 "q"
      recW [] (Or.inl rfl)⟩

/-! ## C6 -/

/-- C6: when no stored entry matches `id`, `setRating` is an intentional
no-op that still succeeds: the returned log and the written blob are the
stored log unchanged. -/
theorem setRating_missing_id_noop (l : List SavedRecipe) (id : String)
    (r : Nat) (h : ∀ x ∈ l, x.id ≠ id) :
    updateRecipeRating noFail (some (Blob.ok l)) id r = (l, some (Blob.ok l)) := by
  simp [updateRecipeRating, noFail, jsonParse, map_update_notMatch l id r h]

/-- Witness for C6 at a two-entry log and an absent identifier. -/
theorem setRating_missing_id_noop_witness :
    (∀ x ∈ [sesA, sesC], x.id ≠ "zzz")
    ∧ updateRecipeRating noFail (some (Blob.ok [sesA, sesC])) "zzz" 2
        = ([sesA, sesC], some (Blob.ok [sesA, sesC])) :=
  ⟨by decide, setRating_missing_id_noop [sesA, sesC] "zzz" 2 (by decide)⟩

/-! ## C7 -/

/-- C7: `list()` never fails outward — with an absent key, a corrupt blob, or
a throwing read it returns the empty sequence. -/
theorem list_degrades_to_empty (env : StorageEnv) (store : Option Blob)
    (h : env.readFails = true ∨ store = none ∨ store = some Blob.corrupt) :
    getSavedRecipes env store = [] := by
  obtain ⟨r, w⟩ := env
  rcases store with _ | b
  · cases r <;> simp_all [getSavedRecipes, jsonParse]
  · cases b <;> cases r <;> simp_all [getSavedRecipes, jsonParse]

/-- Witness for C7 at a corrupt blob under a non-throwing read. -/
theorem list_degrades_to_empty_witness :
    (noFail.readFails = true ∨ (some Blob.corrupt : Option Blob) = none
      ∨ (some Blob.corrupt : Option Blob) = some Blob.corrupt)
    ∧ getSavedRecipes noFail (some Blob.corrupt) = [] :=
  ⟨Or.inr (Or.inr rfl),
    list_degrades_to_empty noFail (some Blob.corrupt) (Or.inr (Or.inr rfl))⟩

/-! ## C8 -/

/-- C8: `clear()` is idempotent — after it, `list()` is empty in every
environment; clearing twice equals clearing once; clearing an absent key is
a no-op. -/
theorem clear_idempotent_empty (env : StorageEnv) (store : Option Blob) :
    getSavedRecipes env (clearHistory store) = []
    ∧ clearHistory (clearHistory store) = clearHistory store
    ∧ clearHistory none = none := by
  refine ⟨?_, rfl, rfl⟩
  obtain ⟨r, w⟩ := env
  cases r <;> simp [getSavedRecipes, clearHistory]

/-! ## C10 -/

/-- C10: on an absent key or any throwing step, `setRating` returns the empty
sequence — the very value `list()` yields on an empty store — and performs no
write: storage is exactly what it was before the call. -/
theorem setRating_failure_empty_no_write (env : StorageEnv)
    (store : Option Blob) (id : String) (r : Nat)
    (h : env.readFails = true ∨ store = none ∨ store = some Blob.corrupt
         ∨ env.writeFails = true) :
    updateRecipeRating env store id r = ([], store)
    ∧ (updateRecipeRating env store id r).1 = getSavedRecipes noFail none := by
  have hmain : updateRecipeRating env store id r = ([], store) := by
    obtain ⟨rr, w⟩ := env
    rcases store with _ | b
    · cases rr <;> cases w <;> simp_all [updateRecipeRating, jsonParse]
    · cases b <;> cases rr <;> cases w <;>
        simp_all [updateRecipeRating, jsonParse]
  exact ⟨hmain, by rw [hmain]; rfl⟩

/-- Witness for C10 at an absent key. -/
theorem setRating_failure_empty_no_write_witness :
    (noFail.readFails = true ∨ (none : Option Blob) = none
      ∨ (none : Option Blob) = some Blob.corrupt ∨ noFail.writeFails = true)
    ∧ (updateRecipeRating noFail none "a" 5 = ([], none)
       ∧ (updateRecipeRating noFail none "a" 5).1 = getSavedRecipes noFail none) :=
  ⟨Or.inr (Or.inl rfl),
    setRating_failure_empty_no_write noFail none "a" 5 (Or.inr (Or.inl rfl))⟩

/-! ## Video-dedup lemmas -/

theorem mapSet_keys_vals (m : List (String × VideoSearchResult)) (k : String)
    (v : VideoSearchResult) (hk : (m.map Prod.fst).Nodup)
    (hv : ∀ p ∈ m, p.2.uri = p.1) (hvk : v.uri = k) :
    ((mapSet m k v).map Prod.fst).Nodup ∧ ∀ p ∈ mapSet m k v, p.2.uri = p.1 := by
  unfold mapSet
  by_cases hmem : m.any (fun p => p.1 = k) = true
  · rw [if_pos hmem]
    have hkeys : (m.map (fun p => if p.1 = k then (k, v) else p)).map Prod.fst
        = m.map Prod.fst := by
      rw [List.map_map]
      refine List.map_congr_left ?_
      intro p _
      by_cases hpk : p.1 = k <;> simp [hpk, Function.comp]
    refine ⟨by rw [hkeys]; exact hk, ?_⟩
    intro q hq
    obtain ⟨p, hp, rfl⟩ := List.mem_map.mp hq
    by_cases hpk : p.1 = k
    · simp only [if_pos hpk]
      exact hvk
    · simp only [if_neg hpk]
      exact hv p hp
  · rw [if_neg hmem]
    have hnot : k ∉ m.map Prod.fst := by
      intro hkm
      obtain ⟨p, hp, hpk⟩ := List.mem_map.mp hkm
      exact hmem (List.any_eq_true.mpr ⟨p, hp, by simp [hpk]⟩)
    constructor
    · rw [List.map_append]
      simp only [List.map_cons, List.map_nil]
      rw [List.nodup_append]
      exact ⟨hk, List.nodup_singleton k, by simpa using hnot⟩
    · intro q hq
      rcases List.mem_append.mp hq with hq | hq
      · exact hv q hq
      · simp only [List.mem_singleton] at hq
        rw [hq]
        exact hvk

theorem foldl_mapSet_inv (results : List VideoSearchResult) :
    ∀ m : List (String × VideoSearchResult),
      (m.map Prod.fst).Nodup → (∀ p ∈ m, p.2.uri = p.1) →
      (((results.foldl (fun m item => mapSet m item.uri item) m).map
          Prod.fst).Nodup
       ∧ ∀ p ∈ results.foldl (fun m item => mapSet m item.uri item) m,
          p.2.uri = p.1) := by
  induction results with
  | nil => exact fun m hk hv => ⟨hk, hv⟩
  | cons a t ih =>
      intro m hk hv
      simp only [List.foldl_cons]
      obtain ⟨hk2, hv2⟩ := mapSet_keys_vals m a.uri a hk hv rfl
      exact ih _ hk2 hv2

theorem dedupByUri_uri_nodup (results : List VideoSearchResult) :
    ((dedupByUri results).map (fun v => v.uri)).Nodup := by
  obtain ⟨hk, hv⟩ := foldl_mapSet_inv results [] List.nodup_nil (by simp)
  unfold dedupByUri
  rw [List.map_map]
  have hcong : (results.foldl (fun m item => mapSet m item.uri item) []).map
      ((fun v => v.uri) ∘ Prod.snd)
      = (results.foldl (fun m item => mapSet m item.uri item) []).map Prod.fst :=
    List.map_congr_left (fun p hp => hv p hp)
  rw [hcong]
  exact hk

theorem mapSet_mem_keys (m : List (String × VideoSearchResult)) (k : String)
    (v : VideoSearchResult) (a : String) :
    a ∈ (mapSet m k v).map Prod.fst ↔ a ∈ m.map Prod.fst ∨ a = k := by
  unfold mapSet
  by_cases hmem : m.any (fun p => p.1 = k) = true
  · rw [if_pos hmem]
    obtain ⟨p, hp, hpk⟩ := List.any_eq_true.mp hmem
    rw [List.map_map]
    have hkeys : m.map (Prod.fst ∘ fun p => if p.1 = k then (k, v) else p)
        = m.map Prod.fst := by
      refine List.map_congr_left ?_
      intro q _
      by_cases hqk : q.1 = k <;> simp [hqk, Function.comp]
    rw [hkeys]
    constructor
    · exact Or.inl
    · rintro (h | rfl)
      · exact h
      · exact List.mem_map.mpr ⟨p, hp, by simpa using hpk⟩
  · rw [if_neg hmem]
    simp [List.mem_append]

theorem foldl_mapSet_mem (results : List VideoSearchResult) :
    ∀ m : List (String × VideoSearchResult), ∀ a : String,
      (a ∈ m.map Prod.fst ∨ ∃ v ∈ results, v.uri = a) →
      a ∈ (results.foldl (fun m item => mapSet m item.uri item) m).map
        Prod.fst := by
  induction results with
  | nil =>
      intro m a h
      rcases h with h | ⟨v, hv, _⟩
      · exact h
      · exact absurd hv (List.not_mem_nil v)
  | cons b t ih =>
      intro m a h
      simp only [List.foldl_cons]
      refine ih (mapSet m b.uri b) a ?_
      rcases h with h | ⟨v, hv, hva⟩
      · exact Or.inl ((mapSet_mem_keys m b.uri b a).mpr (Or.inl h))
      · rcases List.mem_cons.mp hv with rfl | hvt
        · exact Or.inl ((mapSet_mem_keys m v.uri v a).mpr (Or.inr hva.symm))
        · exact Or.inr ⟨v, hvt, hva⟩

theorem filter_uri_count_one (m : List (String × VideoSearchResult))
    (u : String) (hk : (m.map Prod.fst).Nodup)
    (hv : ∀ p ∈ m, p.2.uri = p.1) (hu : u ∈ m.map Prod.fst) :
    ((m.map Prod.snd).filter (fun w => w.uri = u)).length = 1 := by
  induction m with
  | nil => simp at hu
  | cons p t ih =>
      simp only [List.map_cons, List.nodup_cons] at hk
      have hp1 : p.2.uri = p.1 := hv p (List.mem_cons_self p t)
      by_cases hup : u = p.1
      · have hnone : (t.map Prod.snd).filter (fun w => w.uri = u) = [] := by
          rw [List.filter_eq_nil_iff]
          intro w hw
          obtain ⟨q, hq, rfl⟩ := List.mem_map.mp hw
          have := hv q (List.mem_cons_of_mem p hq)
          simp only [this, hup, decide_eq_true_eq]
          intro hq1
          exact hk.1 (hq1 ▸ List.mem_map.mpr ⟨q, hq, rfl⟩)
        simp only [List.map_cons, List.filter_cons]
        rw [if_pos (by simp [hp1, hup]), hnone]
        rfl
      · have hut : u ∈ t.map Prod.fst := by
          rw [List.map_cons, List.mem_cons] at hu
          exact hu.resolve_left hup
        simp only [List.map_cons, List.filter_cons]
        rw [if_neg (by simp [hp1]; exact fun h => hup h.symm)]
        exact ih hk.2 (fun q hq => hv q (List.mem_cons_of_mem p hq)) hut

theorem dedupByUri_retains_each_uri (results : List VideoSearchResult)
    (v : VideoSearchResult) (hv : v ∈ results) :
    ((dedupByUri results).filter (fun w => w.uri = v.uri)).length = 1 := by
  obtain ⟨hk, hvals⟩ := foldl_mapSet_inv results [] List.nodup_nil (by simp)
  have hmem : v.uri ∈ (results.foldl (fun m item => mapSet m item.uri item)
      []).map Prod.fst :=
    foldl_mapSet_mem results [] v.uri (Or.inr ⟨v, hv, rfl⟩)
  unfold dedupByUri
  exact filter_uri_count_one _ v.uri hk hvals hmem

/-! ## C9 -/

/-- Two grounding chunks carrying the same URI with different titles. -/
def chunksW : List GroundingChunk :=
  [{ web := some { uri := some "youtube.com/a", title := some "A" } },
   { web := some { uri := some "youtube.com/a", title := some "B" } }]

/-- The candidate the first chunk of `chunksW` contributes. -/
def vidW : VideoSearchResult :=
  { title := "A", uri := "youtube.com/a", source := "YouTube" }

/-- C9: for every response, the video lookup yields at most 4 results with
pairwise-distinct URIs, the returned sequence is the URI-deduplication of the
accepted candidates capped at 4, every accepted candidate's URI is retained
by exactly ONE entry of the deduplicated sequence (so two candidates with
identical URI and different titles collapse to a single entry, not zero),
and a throw anywhere in the lookup degrades to the empty sequence. -/
theorem video_results_dedup_capped (err : Bool)
    (chunks : Option (List GroundingChunk)) :
    (findRecipeVideos err chunks).length ≤ 4
    ∧ ((findRecipeVideos err chunks).map (fun v => v.uri)).Nodup
    ∧ findRecipeVideos true chunks = []
    ∧ findRecipeVideos false chunks
        = (dedupByUri ((chunks.getD []).filterMap videoCandidate)).take 4
    ∧ ∀ v ∈ (chunks.getD []).filterMap videoCandidate,
        ((dedupByUri ((chunks.getD []).filterMap videoCandidate)).filter
          (fun w => w.uri = v.uri)).length = 1 := by
  refine ⟨?_, ?_, rfl, rfl, ?_⟩
  · cases err
    · simp [findRecipeVideos, List.length_take]
    · simp [findRecipeVideos]
  · cases err
    · have hnd := dedupByUri_uri_nodup ((chunks.getD []).filterMap videoCandidate)
      simp only [findRecipeVideos, Bool.false_eq_true, if_false]
      exact List.Nodup.sublist
        ((List.take_sublist 4 _).map (fun v : VideoSearchResult => v.uri)) hnd
    · simp [findRecipeVideos]
  · intro v hv
    exact dedupByUri_retains_each_uri _ v hv

/-- Witness for C9: both chunks of `chunksW` carry URI `"u"`; instantiating
the theorem at the first resulting candidate shows the deduplicated sequence
retains exactly one entry with that URI. -/
theorem video_results_dedup_capped_witness :
    vidW ∈ (((some chunksW : Option (List GroundingChunk)).getD
        []).filterMap videoCandidate)
    ∧ ((dedupByUri (((some chunksW : Option (List GroundingChunk)).getD
          []).filterMap videoCandidate)).filter
        (fun w => w.uri = vidW.uri)).length = 1 :=
  ⟨by decide,
    (video_results_dedup_capped false (some chunksW)).2.2.2.2 vidW (by decide)⟩

end CulinaryAI
